import Mathlib

/-!
Verification of the LDIF parser (ldif.py) against its specification.

The embedding models Python strings as lists of characters (`Str`), and the
line-oriented input stream as a list of physical lines (`List Str`).  The
parser state in the source is the pair of the buffered line `self._line`
together with the not-yet-read remainder of the stream; in every reachable
state the buffered line is either the most recently read line or the empty
string at end of stream, so the pair is represented here by a single list of
the lines still to be consumed (the buffered line is the head, end of stream
is the empty list; `readline` at end of stream returns the empty string).

Loops of the source are embedded as fuel-indexed structural recursions; the
fuel is instantiated with the length of the remaining input plus one, which
is proved sufficient (each loop iteration consumes at least one input line),
and each loop gets a proved unfolding equation mirroring the source loop.
-/

namespace LdifSpec

/-- Python strings are modelled as lists of characters. -/
abbrev Str := List Char

/-- An LDIF entry: insertion-ordered mapping from attribute type to the list
of values, as built by `parse` (`entry[attr_type] = [...]`). -/
abbrev Entry := List (Str × List Str)

/-- Python `str.lower` for one character, on the ASCII range. -/
def pyLowerChar (c : Char) : Char :=
  if 'A' ≤ c ∧ c ≤ 'Z' then Char.ofNat (c.toNat + 32) else c

/-- Python `str.lower`. -/
def strLower (s : Str) : Str := s.map pyLowerChar

/-- Python whitespace characters, as stripped by `str.lstrip()`. -/
def pyIsSpace (c : Char) : Bool :=
  c == ' ' || c == '\t' || c == '\n' || c == '\r' || c == '\x0b' || c == '\x0c'

/-- Python `s.lstrip()`. -/
def pyLstrip (s : Str) : Str := s.dropWhile pyIsSpace

/-- LDIFParser._stripLineSep: strip one trailing line separator
(`\r\n` or `\n`) from s, but no other whitespace
(`s[-2:] == '\r\n'`, `s[-1:] == '\n'`). -/
def stripLineSep (s : Str) : Str :=
  if s.drop (s.length - 2) = ['\r', '\n'] then s.take (s.length - 2)
  else if s.drop (s.length - 1) = ['\n'] then s.take (s.length - 1)
  else s

/-- The file object `readline`: pop the next physical line, or return the
empty string at end of stream. -/
def readline (inp : List Str) : Str × List Str :=
  match inp with
  | [] => ([], [])
  | l :: ls => (l, ls)

/-- The continuation-reading loop of LDIFParser._unfoldLDIFLine:
`while self._line and self._line[0] == ' '` collect
`self._stripLineSep(self._line[1:])`, reading a new line each time.
Returns the collected fragments and the remaining stream (whose head is the
new buffered line). -/
def unfoldFrags (inp : List Str) : List Str × List Str :=
  match inp with
  | [] => ([], [])
  | l :: ls =>
    if l.head? = some ' ' then
      let r := unfoldFrags ls
      (stripLineSep (l.drop 1) :: r.1, r.2)
    else ([], l :: ls)

/-- LDIFParser._unfoldLDIFLine: strip the buffered line, join all folded
continuation lines onto it (`''.join(unfolded_lines)`), and leave the first
non-continuation line buffered (the head of the returned stream).  The
`decode('utf-8')` of the source is the identity in this character model. -/
def unfoldLDIFLine (st : List Str) : Str × List Str :=
  match st with
  | [] => ([], [])
  | line :: rest =>
    let r := unfoldFrags rest
    ((stripLineSep line :: r.1).flatten, r.2)

/-- Fuel-indexed comment-skipping loop of LDIFParser._parseAttrTypeandValue:
`while unfolded_line and unfolded_line[0] == '#': unfolded_line = self._unfoldLDIFLine()`. -/
def skipCommentsF (fuel : Nat) (st : List Str) : Str × List Str :=
  match fuel with
  | 0 => unfoldLDIFLine st
  | fuel + 1 =>
    let r := unfoldLDIFLine st
    if r.1.head? = some '#' then skipCommentsF fuel r.2 else r

/-- Read one unfolded logical line, skipping folded comment lines.  The fuel
`st.length` is sufficient, see `skipComments_eq`. -/
def skipComments (st : List Str) : Str × List Str :=
  skipCommentsF st.length st

theorem unfoldFrags_length (inp : List Str) : (unfoldFrags inp).2.length ≤ inp.length := by
  induction inp with
  | nil => simp [unfoldFrags]
  | cons l ls ih =>
    simp only [unfoldFrags]
    by_cases h : l.head? = some ' '
    · simpa [h] using Nat.le_succ_of_le ih
    · simp [h]

theorem unfoldLDIFLine_length (st : List Str) (h : st ≠ []) :
    (unfoldLDIFLine st).2.length < st.length := by
  match st with
  | [] => exact absurd rfl h
  | line :: rest =>
    simpa [unfoldLDIFLine] using Nat.lt_succ_of_le (unfoldFrags_length rest)

theorem skipCommentsF_congr (f g : Nat) (st : List Str)
    (hf : st.length ≤ f) (hg : st.length ≤ g) :
    skipCommentsF f st = skipCommentsF g st := by
  induction f generalizing g st with
  | zero =>
    have hst : st = [] := List.length_eq_zero.mp (Nat.le_zero.mp hf)
    subst hst
    match g with
    | 0 => rfl
    | g + 1 => simp [skipCommentsF, unfoldLDIFLine]
  | succ f ih =>
    match g with
    | 0 =>
      have hst : st = [] := List.length_eq_zero.mp (Nat.le_zero.mp hg)
      subst hst
      simp [skipCommentsF, unfoldLDIFLine]
    | g + 1 =>
      simp only [skipCommentsF]
      by_cases h : (unfoldLDIFLine st).1.head? = some '#'
      · have hne : st ≠ [] := by
          intro hst
          subst hst
          simp [unfoldLDIFLine] at h
        have hlt := unfoldLDIFLine_length st hne
        simp only [h, if_pos]
        exact ih _ _ (by omega) (by omega)
      · simp [h]

/-- Unfolding equation for `skipComments`, mirroring the source loop. -/
theorem skipComments_eq (st : List Str) :
    skipComments st =
      (let r := unfoldLDIFLine st
       if r.1.head? = some '#' then skipComments r.2 else r) := by
  show skipCommentsF st.length st = _
  match hst : st with
  | [] => simp [skipCommentsF, unfoldLDIFLine]
  | line :: rest =>
    simp only [List.length_cons, skipCommentsF]
    by_cases h : (unfoldLDIFLine (line :: rest)).1.head? = some '#'
    · simp only [h, if_pos]
      have hlt := unfoldLDIFLine_length (line :: rest) (by simp)
      exact skipCommentsF_congr _ _ _ (by simp at hlt ⊢; omega) le_rfl
    · simp [h]

/-!
Regular expressions.  The module-level DN grammar of the source is a
compiled Python regular expression; it is embedded as a regex syntax tree
with character classes, matched by Brzozowski derivatives.  `REMem` is the
usual inductive language semantics, and `reMatch_iff_REMem` below proves the
matcher correct against it, so acceptance by `is_dn` is acceptance of the
entire string by the DN grammar.
-/

/-- Regular expressions over characters, with character classes. -/
inductive RE where
  | fail : RE
  | eps : RE
  | cls (f : Char → Bool) : RE
  | cat (a b : RE) : RE
  | alt (a b : RE) : RE
  | star (a : RE) : RE

/-- Nullability: does the regex accept the empty string. -/
def nullable (r : RE) : Bool :=
  match r with
  | .fail => false
  | .eps => true
  | .cls _ => false
  | .cat a b => nullable a && nullable b
  | .alt a b => nullable a || nullable b
  | .star _ => true

/-- Brzozowski derivative of a regex by one character. -/
def deriv (r : RE) (c : Char) : RE :=
  match r with
  | .fail => .fail
  | .eps => .fail
  | .cls f => if f c then .eps else .fail
  | .cat a b =>
    if nullable a then .alt (.cat (deriv a c) b) (deriv b c)
    else .cat (deriv a c) b
  | .alt a b => .alt (deriv a c) (deriv b c)
  | .star a => .cat (deriv a c) (.star a)

/-- Full-string matcher by iterated derivatives. -/
def reMatch (r : RE) (s : Str) : Bool := nullable (s.foldl deriv r)

/-- Language semantics of a regex, as an inductive membership predicate. -/
inductive REMem : RE → Str → Prop where
  | eps : REMem .eps []
  | cls {f : Char → Bool} {c : Char} : f c = true → REMem (.cls f) [c]
  | catm {a b : RE} {s t : Str} : REMem a s → REMem b t → REMem (.cat a b) (s ++ t)
  | altl {a b : RE} {s : Str} : REMem a s → REMem (.alt a b) s
  | altr {a b : RE} {s : Str} : REMem b s → REMem (.alt a b) s
  | star0 {a : RE} : REMem (.star a) []
  | stars {a : RE} {s t : Str} : REMem a s → REMem (.star a) t → REMem (.star a) (s ++ t)

/-- A regex matching one single character. -/
def chr (c : Char) : RE := .cls (fun d => d == c)

/-- The regex `r+`, one or more repetitions. -/
def plusRE (r : RE) : RE := .cat r (.star r)

/-- Python `\w` for a pattern compiled without re.UNICODE or re.LOCALE:
ASCII letters, digits and underscore. -/
def isWordChar (c : Char) : Bool :=
  ('a' ≤ c && c ≤ 'z') || ('A' ≤ c && c ≤ 'Z') || ('0' ≤ c && c ≤ '9') || c == '_'

/-- attrtype_pattern = `[\w;.]+(;[\w_-]+)*`. -/
def attrtypeRE : RE :=
  .cat (plusRE (.cls (fun c => isWordChar c || c == ';' || c == '.')))
    (.star (.cat (chr ';') (plusRE (.cls (fun c => isWordChar c || c == '_' || c == '-')))))

/-- attrvalue_pattern = `(([^,]|\\,)+|".*?")`; `[^,]` is any character but a
comma, `.` is any character but a newline, greediness does not change the
accepted language. -/
def attrvalueRE : RE :=
  .alt (plusRE (.alt (.cls (fun c => !(c == ','))) (.cat (chr '\\') (chr ','))))
    (.cat (chr '"') (.cat (.star (.cls (fun c => !(c == '\n')))) (chr '"')))

/-- The regex `[ ]*`. -/
def spacesRE : RE := .star (chr ' ')

/-- rdn_pattern = attrtype_pattern + `[ ]*=[ ]*` + attrvalue_pattern. -/
def rdnRE : RE :=
  .cat attrtypeRE (.cat spacesRE (.cat (chr '=') (.cat spacesRE attrvalueRE)))

/-- dn_pattern = rdn_pattern + `([ ]*,[ ]*` + rdn_pattern + `)*[ ]*`.
The module compiles it anchored on both sides (`'^%s$' % dn_pattern`). -/
def dnRE : RE :=
  .cat rdnRE (.cat (.star (.cat spacesRE (.cat (chr ',') (.cat spacesRE rdnRE)))) spacesRE)

/-- is_dn: the empty string is accepted outright; otherwise the anchored DN
regex must match, and the match (group 0) must be the whole string, i.e. the
entire string belongs to the DN language. -/
def is_dn (s : Str) : Bool := s == [] || reMatch dnRE s

/-!
Base64 decoding.  The source calls `base64.decodestring`, whose decoder
(binascii a2b_base64, Python 2) skips characters outside the base64
alphabet, accumulates six bits per alphabet character, stops successfully at
a padding `=` that closes a quad, and fails with `Incorrect padding` when
bits are left over at the end of input.  Decoded bytes are represented as
characters of the corresponding code point.
-/

/-- Value of one base64 alphabet character. -/
def b64digit (c : Char) : Option Nat :=
  if 'A' ≤ c ∧ c ≤ 'Z' then some (c.toNat - 65)
  else if 'a' ≤ c ∧ c ≤ 'z' then some (c.toNat - 97 + 26)
  else if '0' ≤ c ∧ c ≤ '9' then some (c.toNat - 48 + 52)
  else if c = '+' then some 62
  else if c = '/' then some 63
  else none

/-- First character that is in the base64 alphabet or is padding. -/
def b64findValid (s : Str) : Option Char :=
  match s with
  | [] => none
  | c :: cs => if (b64digit c).isSome || c == '=' then some c else b64findValid cs

/-- Main decode loop: leftchar/leftbits bit accumulator as in binascii.
leftbits is 6, 4 or 2 within a quad; a quad-closing `=` (leftbits 2, or
leftbits 4 with the next valid character also `=`) ends the decode
successfully; other `=` and non-alphabet characters are skipped; leftover
bits at end of input are an `Incorrect padding` failure. -/
def b64go (s : Str) (leftchar leftbits : Nat) (acc : Str) : Option Str :=
  match s with
  | [] => if leftbits = 0 then some acc.reverse else none
  | c :: cs =>
    if c = '=' then
      if leftbits = 2 then some acc.reverse
      else if leftbits = 4 ∧ b64findValid cs = some '=' then some acc.reverse
      else b64go cs leftchar leftbits acc
    else
      match b64digit c with
      | none => b64go cs leftchar leftbits acc
      | some d =>
        let lc := leftchar * 64 + d
        let lb := leftbits + 6
        if 8 ≤ lb then
          b64go cs (lc % 2 ^ (lb - 8)) (lb - 8) (Char.ofNat (lc / 2 ^ (lb - 8)) :: acc)
        else b64go cs lc lb acc

/-- base64.decodestring; `none` models the binascii.Error exception. -/
def base64decode (s : Str) : Option Str := b64go s 0 0 []

/-- CHANGE_TYPES (the keys of valid_changetype_dict). -/
def CHANGE_TYPES : List Str :=
  ["add".toList, "delete".toList, "modify".toList, "modrdn".toList]

/-- Tokenization of one unfolded logical line, the tail of
LDIFParser._parseAttrTypeandValue after comment skipping: termination test,
split at the first colon (`unfolded_line.index(':')`, absence means a
malformed line treated as non-existent), then the two-character value spec
chooses plain, base64 or URL decoding.  An `Except.error` models an uncaught
exception aborting `parse`. -/
def tokenizeLogicalLine (u : Str) : Except String (Option Str × Option Str) :=
  if u = [] ∨ u = ['\n'] ∨ u = ['\r', '\n'] then .ok (none, none)
  else
    match u.findIdx? (fun c => c == ':') with
    | none => .ok (none, none)
    | some colonPos =>
      let attrType := u.take colonPos
      let valueSpec := (u.drop colonPos).take 2
      if valueSpec = [':', ':'] then
        match base64decode (u.drop (colonPos + 2)) with
        | some v => .ok (some attrType, some v)
        | none => .error "Incorrect padding"
      else if valueSpec = [':', '<'] then
        .ok (some attrType, none)
      else if valueSpec = [':', '\r', '\n'] ∨ valueSpec = ['\n'] then
        .ok (some attrType, some [])
      else
        .ok (some attrType, some (pyLstrip (u.drop (colonPos + 2))))

/-- LDIFParser._parseAttrTypeandValue: unfold one logical line (skipping
folded comments) and tokenize it; the new stream (buffered line at its head)
is returned alongside. -/
def parseAttrTypeandValue (st : List Str) :
    Except String ((Option Str × Option Str) × List Str) :=
  match tokenizeLogicalLine (skipComments st).1 with
  | .error e => .error e
  | .ok tv => .ok (tv, (skipComments st).2)

/-- Append a value to an entry, as in `parse`: `entry[attr_type].append(v)`
when the type is present, `entry[attr_type] = [v]` otherwise. -/
def entryInsert (entry : Entry) (t : Str) (v : Str) : Entry :=
  if entry.any (fun p => p.1 = t) then
    entry.map (fun p => if p.1 = t then (p.1, p.2 ++ [v]) else p)
  else entry ++ [(t, [v])]

/-- Fuel-indexed inner record loop of LDIFParser.parse:
`while attr_type is not None and attr_value is not None`, handling the dn,
changetype and ordinary-attribute branches.  Note that the loop also exits
when only the value is None (a URL-reference token); the ordinary-attribute
branch of the source re-tests `attr_value is not None`, which is always true
inside the loop.  Returns (dn, entry, remaining stream). -/
def parseRecordF (fuel : Nat) (ignored : List Str) (dn ct : Option Str)
    (entry : Entry) (st : List Str) :
    Except String (Option Str × Entry × List Str) :=
  match fuel with
  | 0 => .error "out of fuel"
  | fuel + 1 =>
    match parseAttrTypeandValue st with
    | .error e => .error e
    | .ok ((some attrType, some attrValue), st') =>
      if attrType = "dn".toList then
        if dn.isSome then .error "Two lines starting with dn: in one record."
        else if is_dn attrValue = false then
          .error "No valid string-representation of distinguished name."
        else parseRecordF fuel ignored (some attrValue) ct entry st'
      else if attrType = "changetype".toList then
        if dn.isNone then .error "Read changetype: before getting valid dn: line."
        else if ct.isSome then .error "Two lines starting with changetype: in one record."
        else if CHANGE_TYPES.contains attrValue = false then
          .error "changetype value is invalid."
        else parseRecordF fuel ignored dn (some attrValue) entry st'
      else if ignored.contains (strLower attrType) then
        parseRecordF fuel ignored dn ct entry st'
      else
        parseRecordF fuel ignored dn ct (entryInsert entry attrType attrValue) st'
    | .ok ((_, _), st') => .ok (dn, entry, st')

/-- Inner record loop with sufficient fuel, see `parseRecord_eq`. -/
def parseRecord (ignored : List Str) (dn ct : Option Str) (entry : Entry)
    (st : List Str) : Except String (Option Str × Entry × List Str) :=
  parseRecordF (st.length + 1) ignored dn ct entry st

/-- Fuel-indexed outer loop of LDIFParser.parse: one iteration per record,
guarded by `self._line and (not self._max_entries or records_read < max)`;
a record with a non-empty entry is dispatched to the handler (modelled as
appending to the returned list) and counted. -/
def parseLoopF (fuel : Nat) (ignored : List Str) (maxEntries : Nat)
    (acc : List (Option Str × Entry)) (recordsRead : Nat) (st : List Str) :
    Except String (List (Option Str × Entry) × Nat) :=
  match fuel with
  | 0 => .error "out of fuel"
  | fuel + 1 =>
    if (st.head?.getD []) ≠ [] ∧ (maxEntries = 0 ∨ recordsRead < maxEntries) then
      match parseRecord ignored none none [] st with
      | .error e => .error e
      | .ok (dn, entry, st') =>
        if entry ≠ [] then
          parseLoopF fuel ignored maxEntries (acc ++ [(dn, entry)]) (recordsRead + 1) st'
        else parseLoopF fuel ignored maxEntries acc recordsRead st'
    else .ok (acc, recordsRead)

/-- Outer parse loop with sufficient fuel, see `parseLoop_eq`. -/
def parseLoop (ignored : List Str) (maxEntries : Nat)
    (acc : List (Option Str × Entry)) (recordsRead : Nat) (st : List Str) :
    Except String (List (Option Str × Entry) × Nat) :=
  parseLoopF (st.length + 1) ignored maxEntries acc recordsRead st

/-- LDIFParser configured by `__init__` (ignored attribute types are
lowercased into a lookup set) followed by `parse` on the whole stream:
returns the ordered list of records dispatched to the handler together with
the final records_read counter, or the error aborting the parse. -/
def parse (ignoredAttrTypes : List Str) (maxEntries : Nat) (input : List Str) :
    Except String (List (Option Str × Entry) × Nat) :=
  parseLoop (ignoredAttrTypes.map strLower) maxEntries [] 0 input

/-!
Rendering of well-formed LDIF inputs, used to state the specification
properties that quantify over valid inputs.  `attrLine` is the physical
line `type: value` with its trailing newline, `contLine` a folded
continuation line, and `renderRecord` one record terminated by a blank
line.  The `tokGood`/`wfRecord` predicates give the side conditions under
which rendering is inverse to parsing (no embedded line separators, no
leading continuation space, and so on).
-/

/-- Rendering of one attribute line `type: value` with trailing newline. -/
def attrLine (t v : Str) : Str := t ++ ':' :: ' ' :: (v ++ ['\n'])

/-- Rendering of one folded continuation line: one leading space. -/
def contLine (q : Str) : Str := ' ' :: (q ++ ['\n'])

/-- A source-level record: optional dn line and a list of attribute lines. -/
structure SRecord where
  dn? : Option Str
  attrs : List (Str × Str)

/-- Rendering of one record: its dn line if any, its attribute lines, and a
terminating blank line. -/
def renderRecord (r : SRecord) : List Str :=
  (match r.dn? with
   | some d => [attrLine ("dn".toList) d]
   | none => []) ++ r.attrs.map (fun p => attrLine p.1 p.2) ++ [['\n']]

/-- Rendering of a sequence of records into a stream of physical lines. -/
def renderInput (rs : List SRecord) : List Str := (rs.map renderRecord).flatten

/-- The entry `parse` builds from an attribute list with no ignored types. -/
def buildEntry (entry : Entry) (attrs : List (Str × Str)) : Entry :=
  attrs.foldl (fun e p => entryInsert e p.1 p.2) entry

/-- The record the handler receives for a rendered `SRecord`. -/
def dispRecord (r : SRecord) : Option Str × Entry := (r.dn?, buildEntry [] r.attrs)

/-- The head of the stream, if any, is not a folded continuation line. -/
abbrev headNotSpace (S : List Str) : Prop :=
  match S with
  | [] => True
  | l :: _ => l.head? ≠ some ' '

/-- Well-formedness of an attribute type for rendering: non-empty, does not
begin a continuation or comment line, no colon and no line separators. -/
abbrev tokGoodType (t : Str) : Prop :=
  t ≠ [] ∧ t.head? ≠ some ' ' ∧ t.head? ≠ some '#' ∧ ':' ∉ t ∧ '\n' ∉ t ∧ '\r' ∉ t

/-- Well-formedness of an attribute value for rendering: no line separators
and no leading whitespace (so tokenizing returns it unchanged). -/
abbrev tokGoodVal (v : Str) : Prop := '\n' ∉ v ∧ '\r' ∉ v ∧ pyLstrip v = v

/-- Well-formedness of a rendered dn value. -/
abbrev goodDN (d : Str) : Prop := is_dn d = true ∧ tokGoodVal d

/-- A well-formed record: valid dn if present, at least one attribute line,
all attribute lines well-formed, none of them named dn or changetype. -/
abbrev wfRecord (r : SRecord) : Prop :=
  (match r.dn? with
   | some d => goodDN d
   | none => True) ∧ r.attrs ≠ [] ∧
    ∀ p ∈ r.attrs, tokGoodType p.1 ∧ tokGoodVal p.2 ∧
      p.1 ≠ "dn".toList ∧ p.1 ≠ "changetype".toList

instance (r : SRecord) : Decidable (wfRecord r) := by
  unfold wfRecord
  match r with
  | ⟨none, attrs⟩ => exact inferInstance
  | ⟨some d, attrs⟩ => exact inferInstance

instance : DecidableEq (Option Str × Entry) := inferInstance

/-!
Progress lemmas: every loop iteration consumes at least one input line, so
the chosen fuel is sufficient and each of the fuel-free wrappers satisfies
the unfolding equation of the loop it embeds.
-/

theorem skipCommentsF_length (f : Nat) (st : List Str) :
    (skipCommentsF f st).2.length ≤ st.length ∧
      (st ≠ [] → (skipCommentsF f st).2.length < st.length) := by
  induction f generalizing st with
  | zero =>
    refine ⟨?_, fun h => unfoldLDIFLine_length st h⟩
    match st with
    | [] => simp [skipCommentsF, unfoldLDIFLine]
    | l :: ls => exact Nat.le_of_lt (unfoldLDIFLine_length _ (by simp))
  | succ f ih =>
    simp only [skipCommentsF]
    by_cases h : (unfoldLDIFLine st).1.head? = some '#'
    · have hne : st ≠ [] := by
        intro hst
        subst hst
        simp [unfoldLDIFLine] at h
      have hlt := unfoldLDIFLine_length st hne
      have := ih (unfoldLDIFLine st).2
      simp only [h, if_pos]
      exact ⟨by omega, fun _ => by omega⟩
    · simp only [h, if_neg, ite_false]
      refine ⟨?_, fun hne => unfoldLDIFLine_length st hne⟩
      match st with
      | [] => simp [unfoldLDIFLine]
      | l :: ls => exact Nat.le_of_lt (unfoldLDIFLine_length _ (by simp))

theorem skipComments_length (st : List Str) :
    (skipComments st).2.length ≤ st.length ∧
      (st ≠ [] → (skipComments st).2.length < st.length) :=
  skipCommentsF_length st.length st

theorem skipComments_nil : skipComments [] = ([], []) := by
  simp [skipComments, skipCommentsF, unfoldLDIFLine]

theorem parseAttrTypeandValue_length (st : List Str) (tv : Option Str × Option Str)
    (st' : List Str) (h : parseAttrTypeandValue st = .ok (tv, st')) :
    st'.length ≤ st.length ∧ (st ≠ [] → st'.length < st.length) := by
  have hst' : st' = (skipComments st).2 := by
    unfold parseAttrTypeandValue at h
    cases htok : tokenizeLogicalLine (skipComments st).1 with
    | error e => rw [htok] at h; exact absurd h (by simp)
    | ok tv0 => rw [htok] at h; injection h with h1; injection h1 with _ h2; exact h2.symm
  subst hst'
  exact skipComments_length st

theorem parseAttrTypeandValue_some_ne (st : List Str) (t : Str) (v : Option Str)
    (st' : List Str) (h : parseAttrTypeandValue st = .ok ((some t, v), st')) :
    st ≠ [] := by
  intro hst
  subst hst
  simp [parseAttrTypeandValue, skipComments_nil, tokenizeLogicalLine] at h

theorem parseAttrTypeandValue_some_lt (st : List Str) (t : Str) (v : Option Str)
    (st' : List Str) (h : parseAttrTypeandValue st = .ok ((some t, v), st')) :
    st'.length < st.length :=
  (parseAttrTypeandValue_length st _ st' h).2 (parseAttrTypeandValue_some_ne st t v st' h)

theorem parseRecordF_congr (f g : Nat) (ignored : List Str) (dn ct : Option Str)
    (entry : Entry) (st : List Str) (hf : st.length < f) (hg : st.length < g) :
    parseRecordF f ignored dn ct entry st = parseRecordF g ignored dn ct entry st := by
  induction f generalizing g dn ct entry st with
  | zero => omega
  | succ f ih =>
    match g, hg with
    | g + 1, hg =>
      simp only [parseRecordF]
      cases h : parseAttrTypeandValue st with
      | error e => rfl
      | ok r =>
        obtain ⟨⟨t?, v?⟩, st'⟩ := r
        match t?, v? with
        | some t, some v =>
          have hlt := parseAttrTypeandValue_some_lt st t (some v) st' h
          have hrec : ∀ dn1 ct1 e1, parseRecordF f ignored dn1 ct1 e1 st' =
              parseRecordF g ignored dn1 ct1 e1 st' :=
            fun dn1 ct1 e1 => ih g dn1 ct1 e1 st' (by omega) (by omega)
          simp only [hrec]
        | some t, none => rfl
        | none, some v => rfl
        | none, none => rfl

/-- Unfolding equation for `parseRecord`, mirroring the inner record loop of
the source. -/
theorem parseRecord_eq (ignored : List Str) (dn ct : Option Str) (entry : Entry)
    (st : List Str) :
    parseRecord ignored dn ct entry st =
      match parseAttrTypeandValue st with
      | .error e => .error e
      | .ok ((some attrType, some attrValue), st') =>
        if attrType = "dn".toList then
          if dn.isSome then .error "Two lines starting with dn: in one record."
          else if is_dn attrValue = false then
            .error "No valid string-representation of distinguished name."
          else parseRecord ignored (some attrValue) ct entry st'
        else if attrType = "changetype".toList then
          if dn.isNone then .error "Read changetype: before getting valid dn: line."
          else if ct.isSome then .error "Two lines starting with changetype: in one record."
          else if CHANGE_TYPES.contains attrValue = false then
            .error "changetype value is invalid."
          else parseRecord ignored dn (some attrValue) entry st'
        else if ignored.contains (strLower attrType) then
          parseRecord ignored dn ct entry st'
        else
          parseRecord ignored dn ct (entryInsert entry attrType attrValue) st'
      | .ok ((_, _), st') => .ok (dn, entry, st') := by
  show parseRecordF (st.length + 1) ignored dn ct entry st = _
  simp only [parseRecordF]
  cases h : parseAttrTypeandValue st with
  | error e => rfl
  | ok r =>
    obtain ⟨⟨t?, v?⟩, st'⟩ := r
    match t?, v? with
    | some t, some v =>
      have hlt := parseAttrTypeandValue_some_lt st t (some v) st' h
      have hrec : ∀ dn1 ct1 e1, parseRecordF st.length ignored dn1 ct1 e1 st' =
          parseRecord ignored dn1 ct1 e1 st' :=
        fun dn1 ct1 e1 => parseRecordF_congr _ _ ignored dn1 ct1 e1 st' (by omega) (by omega)
      simp only [hrec]
    | some t, none => rfl
    | none, some v => rfl
    | none, none => rfl

theorem parseRecordF_length (f : Nat) (ignored : List Str) (dn ct : Option Str)
    (entry : Entry) (st : List Str) (dn' : Option Str) (entry' : Entry) (st' : List Str)
    (h : parseRecordF f ignored dn ct entry st = .ok (dn', entry', st')) :
    st'.length ≤ st.length ∧ (st ≠ [] → st'.length < st.length) := by
  induction f generalizing dn ct entry st with
  | zero => exact absurd h (by simp [parseRecordF])
  | succ f ih =>
    simp only [parseRecordF] at h
    cases ha : parseAttrTypeandValue st with
    | error e => rw [ha] at h; exact absurd h (by simp)
    | ok r =>
      rw [ha] at h
      obtain ⟨⟨t?, v?⟩, st1⟩ := r
      match t?, v? with
      | some t, some v =>
        have hlt := parseAttrTypeandValue_some_lt st t (some v) st1 ha
        simp only at h
        split at h
        · split at h
          · exact absurd h (by simp)
          · split at h
            · exact absurd h (by simp)
            · have := ih _ _ _ _ h; omega
        · split at h
          · split at h
            · exact absurd h (by simp)
            · split at h
              · exact absurd h (by simp)
              · split at h
                · exact absurd h (by simp)
                · have := ih _ _ _ _ h; omega
          · split at h
            · have := ih _ _ _ _ h; omega
            · have := ih _ _ _ _ h; omega
      | some t, none =>
        have := parseAttrTypeandValue_length st _ st1 ha
        simp only at h
        injection h with h1
        injection h1 with _ h2
        injection h2 with _ h3
        subst h3
        exact this
      | none, some v =>
        have := parseAttrTypeandValue_length st _ st1 ha
        simp only at h
        injection h with h1
        injection h1 with _ h2
        injection h2 with _ h3
        subst h3
        exact this
      | none, none =>
        have := parseAttrTypeandValue_length st _ st1 ha
        simp only at h
        injection h with h1
        injection h1 with _ h2
        injection h2 with _ h3
        subst h3
        exact this

theorem parseRecord_length (ignored : List Str) (dn ct : Option Str) (entry : Entry)
    (st : List Str) (dn' : Option Str) (entry' : Entry) (st' : List Str)
    (h : parseRecord ignored dn ct entry st = .ok (dn', entry', st')) :
    st'.length ≤ st.length ∧ (st ≠ [] → st'.length < st.length) :=
  parseRecordF_length _ ignored dn ct entry st dn' entry' st' h

theorem parseLoopF_congr (f g : Nat) (ignored : List Str) (maxEntries : Nat)
    (acc : List (Option Str × Entry)) (recordsRead : Nat) (st : List Str)
    (hf : st.length < f) (hg : st.length < g) :
    parseLoopF f ignored maxEntries acc recordsRead st =
      parseLoopF g ignored maxEntries acc recordsRead st := by
  induction f generalizing g acc recordsRead st with
  | zero => omega
  | succ f ih =>
    match g, hg with
    | g + 1, hg =>
      simp only [parseLoopF]
      by_cases hc : (st.head?.getD []) ≠ [] ∧ (maxEntries = 0 ∨ recordsRead < maxEntries)
      · rw [if_pos hc, if_pos hc]
        cases h : parseRecord ignored none none [] st with
        | error e => rfl
        | ok r =>
          obtain ⟨dn, entry, st'⟩ := r
          have hne : st ≠ [] := by
            intro hst
            subst hst
            simp at hc
          have hlt := (parseRecord_length ignored none none [] st dn entry st' h).2 hne
          dsimp only
          split_ifs with he
          · exact ih g _ _ st' (by omega) (by omega)
          · exact ih g _ _ st' (by omega) (by omega)
      · rw [if_neg hc, if_neg hc]

/-- Unfolding equation for `parseLoop`, mirroring the outer record loop of
the source. -/
theorem parseLoop_eq (ignored : List Str) (maxEntries : Nat)
    (acc : List (Option Str × Entry)) (recordsRead : Nat) (st : List Str) :
    parseLoop ignored maxEntries acc recordsRead st =
      (if (st.head?.getD []) ≠ [] ∧ (maxEntries = 0 ∨ recordsRead < maxEntries) then
        match parseRecord ignored none none [] st with
        | .error e => .error e
        | .ok (dn, entry, st') =>
          if entry ≠ [] then
            parseLoop ignored maxEntries (acc ++ [(dn, entry)]) (recordsRead + 1) st'
          else parseLoop ignored maxEntries acc recordsRead st'
      else .ok (acc, recordsRead)) := by
  show parseLoopF (st.length + 1) ignored maxEntries acc recordsRead st = _
  simp only [parseLoopF]
  by_cases hc : (st.head?.getD []) ≠ [] ∧ (maxEntries = 0 ∨ recordsRead < maxEntries)
  · rw [if_pos hc, if_pos hc]
    cases h : parseRecord ignored none none [] st with
    | error e => rfl
    | ok r =>
      obtain ⟨dn, entry, st'⟩ := r
      have hne : st ≠ [] := by
        intro hst
        subst hst
        simp at hc
      have hlt := (parseRecord_length ignored none none [] st dn entry st' h).2 hne
      have hrec : ∀ acc1 n1, parseLoopF st.length ignored maxEntries acc1 n1 st' =
          parseLoop ignored maxEntries acc1 n1 st' :=
        fun acc1 n1 => parseLoopF_congr _ _ ignored maxEntries acc1 n1 st' (by omega) (by omega)
      simp only [hrec]
  · rw [if_neg hc, if_neg hc]

/-!
Correctness of the derivative matcher against the inductive language
semantics `REMem`.
-/

theorem not_REMem_fail {s : Str} (h : REMem .fail s) : False := by cases h

theorem REMem_eps_iff {s : Str} : REMem .eps s ↔ s = [] := by
  constructor
  · intro h; cases h; rfl
  · intro h; subst h; exact REMem.eps

theorem REMem_cls_iff {f : Char → Bool} {s : Str} :
    REMem (.cls f) s ↔ ∃ c, s = [c] ∧ f c = true := by
  constructor
  · intro h
    cases h with
    | cls hc => exact ⟨_, rfl, hc⟩
  · rintro ⟨c, rfl, hc⟩
    exact REMem.cls hc

theorem REMem_cat_iff {a b : RE} {s : Str} :
    REMem (.cat a b) s ↔ ∃ s₁ s₂, s = s₁ ++ s₂ ∧ REMem a s₁ ∧ REMem b s₂ := by
  constructor
  · intro h
    cases h with
    | catm h1 h2 => exact ⟨_, _, rfl, h1, h2⟩
  · rintro ⟨s₁, s₂, rfl, h1, h2⟩
    exact REMem.catm h1 h2

theorem REMem_alt_iff {a b : RE} {s : Str} :
    REMem (.alt a b) s ↔ REMem a s ∨ REMem b s := by
  constructor
  · intro h
    cases h with
    | altl h1 => exact Or.inl h1
    | altr h2 => exact Or.inr h2
  · rintro (h1 | h2)
    · exact REMem.altl h1
    · exact REMem.altr h2

theorem REMem_star_decomp {r : RE} {l : Str} (h : REMem r l) :
    ∀ a : RE, r = .star a →
      l = [] ∨ ∃ s₁ s₂, l = s₁ ++ s₂ ∧ s₁ ≠ [] ∧ REMem a s₁ ∧ REMem (.star a) s₂ := by
  induction h with
  | eps => intro a heq; exact absurd heq (by simp)
  | cls _ => intro a heq; exact absurd heq (by simp)
  | catm _ _ _ _ => intro a heq; exact absurd heq (by simp)
  | altl _ _ => intro a heq; exact absurd heq (by simp)
  | altr _ _ => intro a heq; exact absurd heq (by simp)
  | star0 => intro a heq; exact Or.inl rfl
  | stars hs ht ihs iht =>
    intro a heq
    injection heq with ha
    subst ha
    rename_i s t
    by_cases hs0 : s = []
    · subst hs0
      simpa using iht _ rfl
    · exact Or.inr ⟨s, t, rfl, hs0, hs, ht⟩

theorem nullable_iff (r : RE) : nullable r = true ↔ REMem r [] := by
  induction r with
  | fail =>
    simp only [nullable, Bool.false_eq_true, false_iff]
    exact fun h => not_REMem_fail h
  | eps => simp [nullable, REMem_eps_iff]
  | cls f =>
    simp only [nullable, Bool.false_eq_true, false_iff, REMem_cls_iff]
    rintro ⟨c, hc, _⟩
    exact absurd hc (by simp)
  | cat a b iha ihb =>
    simp only [nullable, Bool.and_eq_true, iha, ihb, REMem_cat_iff]
    constructor
    · rintro ⟨h1, h2⟩
      exact ⟨[], [], rfl, h1, h2⟩
    · rintro ⟨s₁, s₂, hs, h1, h2⟩
      have h0 : s₁ = [] ∧ s₂ = [] := by
        constructor <;> [skip; skip] <;>
          (first
            | exact List.append_eq_nil.mp hs.symm |>.1
            | exact List.append_eq_nil.mp hs.symm |>.2)
      obtain ⟨e1, e2⟩ := h0
      subst e1; subst e2
      exact ⟨h1, h2⟩
  | alt a b iha ihb => simp [nullable, iha, ihb, REMem_alt_iff]
  | star a ih =>
    simp only [nullable, true_iff]
    exact REMem.star0

theorem deriv_iff (r : RE) (c : Char) (s : Str) :
    REMem (deriv r c) s ↔ REMem r (c :: s) := by
  induction r generalizing s with
  | fail =>
    constructor
    · intro h; exact absurd h not_REMem_fail
    · intro h; exact absurd h not_REMem_fail
  | eps =>
    simp only [deriv]
    constructor
    · intro h; exact absurd h not_REMem_fail
    · intro h; exact absurd (REMem_eps_iff.mp h) (by simp)
  | cls f =>
    simp only [deriv]
    by_cases hf : f c = true
    · rw [if_pos hf]
      simp only [REMem_eps_iff, REMem_cls_iff]
      constructor
      · intro h; subst h; exact ⟨c, rfl, hf⟩
      · rintro ⟨d, hd, _⟩
        exact (List.cons_eq_cons.mp hd).2
    · rw [if_neg (by simpa using hf)]
      constructor
      · intro h; exact absurd h not_REMem_fail
      · intro h
        obtain ⟨d, hd, hfd⟩ := REMem_cls_iff.mp h
        obtain ⟨h1, _⟩ := List.cons_eq_cons.mp hd
        subst h1
        exact absurd hfd hf
  | cat a b iha ihb =>
    simp only [deriv]
    by_cases hn : nullable a = true
    · rw [if_pos hn]
      simp only [REMem_alt_iff, REMem_cat_iff]
      constructor
      · rintro (⟨s₁, s₂, rfl, h1, h2⟩ | h2)
        · exact ⟨c :: s₁, s₂, rfl, iha s₁ |>.mp h1, h2⟩
        · exact ⟨[], c :: s, rfl, (nullable_iff a).mp hn, ihb s |>.mp h2⟩
      · rintro ⟨s₁, s₂, hs, h1, h2⟩
        match s₁, hs with
        | [], hs =>
          right
          simp only [List.nil_append] at hs
          subst hs
          exact (ihb s).mpr h2
        | d :: ds, hs =>
          left
          obtain ⟨h3, h4⟩ := List.cons_eq_cons.mp hs
          subst h3
          subst h4
          exact ⟨ds, s₂, rfl, (iha ds).mpr h1, h2⟩
    · rw [if_neg hn]
      simp only [REMem_cat_iff]
      constructor
      · rintro ⟨s₁, s₂, rfl, h1, h2⟩
        exact ⟨c :: s₁, s₂, rfl, (iha s₁).mp h1, h2⟩
      · rintro ⟨s₁, s₂, hs, h1, h2⟩
        match s₁, hs with
        | [], hs =>
          exact absurd ((nullable_iff a).mpr h1) hn
        | d :: ds, hs =>
          obtain ⟨h3, h4⟩ := List.cons_eq_cons.mp hs
          subst h3
          subst h4
          exact ⟨ds, s₂, rfl, (iha ds).mpr h1, h2⟩
  | alt a b iha ihb => simp [deriv, REMem_alt_iff, iha, ihb]
  | star a ih =>
    simp only [deriv, REMem_cat_iff]
    constructor
    · rintro ⟨s₁, s₂, rfl, h1, h2⟩
      exact REMem.stars ((ih s₁).mp h1) h2
    · intro h
      rcases REMem_star_decomp h a rfl with h0 | ⟨s₁, s₂, hs, hne, h1, h2⟩
      · exact absurd h0 (by simp)
      · match s₁, hne, hs with
        | d :: ds, _, hs =>
          obtain ⟨h3, h4⟩ := List.cons_eq_cons.mp hs
          subst h3
          subst h4
          exact ⟨ds, s₂, rfl, (ih ds).mpr h1, h2⟩

/-- Matcher correctness: the derivative matcher accepts exactly the language
of the regex. -/
theorem reMatch_iff_REMem (r : RE) (s : Str) : reMatch r s = true ↔ REMem r s := by
  induction s generalizing r with
  | nil => exact nullable_iff r
  | cons c cs ih =>
    have : reMatch r (c :: cs) = reMatch (deriv r c) cs := rfl
    rw [this, ih (deriv r c)]
    exact deriv_iff r c cs

/-!
Line-level lemmas: stripping, unfolding and tokenizing well-formed physical
lines.
-/

theorem drop_last_append (x : Str) (h : x ≠ []) :
    ∃ d, d ∈ x ∧ (x ++ ['\n']).drop (x.length - 1) = [d, '\n'] := by
  induction x with
  | nil => exact absurd rfl h
  | cons a t ih =>
    match t with
    | [] => exact ⟨a, by simp, rfl⟩
    | b :: u =>
      obtain ⟨d, hd, he⟩ := ih (by simp)
      exact ⟨d, by simp [hd], by simpa using he⟩

theorem stripLineSep_append_newline (x : Str) (h : '\r' ∉ x) :
    stripLineSep (x ++ ['\n']) = x := by
  match x with
  | [] => rfl
  | a :: t =>
    obtain ⟨d, hd, he⟩ := drop_last_append (a :: t) (by simp)
    have hne : d ≠ '\r' := fun hdr => h (hdr ▸ hd)
    unfold stripLineSep
    have hlen2 : ((a :: t) ++ ['\n']).length - 2 = (a :: t).length - 1 := by simp
    rw [hlen2, he, if_neg (by simp [hne])]
    have hlen1 : ((a :: t) ++ ['\n']).length - 1 = (a :: t).length := by simp
    rw [hlen1, List.drop_left, if_pos rfl, List.take_left]

theorem unfoldFrags_noCont (S : List Str) (h : headNotSpace S) :
    unfoldFrags S = ([], S) := by
  match S with
  | [] => rfl
  | l :: ls =>
    unfold unfoldFrags
    rw [if_neg (by exact h)]

theorem unfoldLDIFLine_cons (line : Str) (S : List Str) (h : headNotSpace S) :
    unfoldLDIFLine (line :: S) = (stripLineSep line, S) := by
  show ((stripLineSep line :: (unfoldFrags S).1).flatten, (unfoldFrags S).2) = _
  rw [unfoldFrags_noCont S h]
  simp

theorem skipComments_cons (line : Str) (S : List Str) (h : headNotSpace S)
    (hc : (stripLineSep line).head? ≠ some '#') :
    skipComments (line :: S) = (stripLineSep line, S) := by
  rw [skipComments_eq]
  simp only [unfoldLDIFLine_cons line S h]
  rw [if_neg hc]

theorem findIdx_colon (t rest : Str) (h : ':' ∉ t) (i : Nat) :
    (t ++ ':' :: rest).findIdx? (fun c => c == ':') i = some (i + t.length) := by
  induction t generalizing i with
  | nil => simp [List.findIdx?_cons]
  | cons a t ih =>
    have ha : (a == ':') = false := by
      simp only [beq_eq_false_iff_ne, ne_eq]
      intro hh
      exact h (by simp [hh])
    have ht : ':' ∉ t := fun hm => h (by simp [hm])
    simp only [List.cons_append, List.findIdx?_cons, ha, Bool.false_eq_true, if_false,
      ih ht (i + 1)]
    congr 1
    simp only [List.length_cons]
    omega

theorem tokenizeLogicalLine_attr (t v : Str) (ht : tokGoodType t) (hv : tokGoodVal v) :
    tokenizeLogicalLine (t ++ ':' :: ' ' :: v) = .ok (some t, some v) := by
  obtain ⟨hne, hsp, hhash, hcolon, hnl, hcr⟩ := ht
  have hlen : 1 ≤ t.length := by
    match t, hne with
    | a :: t, _ => simp
  have hu1 : t ++ ':' :: ' ' :: v ≠ [] := List.append_ne_nil_of_left_ne_nil hne _
  have hulen : 3 ≤ (t ++ ':' :: ' ' :: v).length := by simp; omega
  unfold tokenizeLogicalLine
  rw [if_neg (by
    push_neg
    refine ⟨hu1, ?_, ?_⟩
    · intro he
      have := congrArg List.length he
      simp at this
      omega
    · intro he
      have := congrArg List.length he
      simp at this
      omega)]
  rw [findIdx_colon t (' ' :: v) hcolon 0]
  simp only [Nat.zero_add]
  have htake : (t ++ ':' :: ' ' :: v).take t.length = t := List.take_left t _
  have hdrop : (t ++ ':' :: ' ' :: v).drop t.length = ':' :: ' ' :: v := List.drop_left t _
  rw [htake, hdrop]
  have hspec : (':' :: ' ' :: v).take 2 = [':', ' '] := rfl
  rw [hspec]
  rw [if_neg (by decide), if_neg (by decide), if_neg (by decide)]
  have hdrop2 : (t ++ ':' :: ' ' :: v).drop (t.length + 2) = v := by
    have : t ++ ':' :: ' ' :: v = (t ++ [':', ' ']) ++ v := by simp
    rw [this]
    have hl : (t ++ [':', ' ']).length = t.length + 2 := by simp
    rw [← hl, List.drop_left]
  rw [hdrop2, hv.2.2]

theorem parseAttrTypeandValue_attr (t v : Str) (S : List Str)
    (ht : tokGoodType t) (hv : tokGoodVal v) (hS : headNotSpace S) :
    parseAttrTypeandValue (attrLine t v :: S) = .ok ((some t, some v), S) := by
  have hline : attrLine t v = (t ++ ':' :: ' ' :: v) ++ ['\n'] := by
    unfold attrLine
    simp
  have hstrip : stripLineSep (attrLine t v) = t ++ ':' :: ' ' :: v := by
    rw [hline]
    exact stripLineSep_append_newline _ (by
      intro hm
      rcases List.mem_append.mp hm with hm | hm
      · exact ht.2.2.2.2.2 hm
      · rcases List.mem_cons.mp hm with hm | hm
        · exact absurd hm (by decide)
        · rcases List.mem_cons.mp hm with hm | hm
          · exact absurd hm (by decide)
          · exact hv.2.1 hm)
  have hhead : (t ++ ':' :: ' ' :: v).head? ≠ some '#' := by
    match t, ht.1 with
    | a :: t, _ =>
      simp only [List.cons_append, List.head?_cons]
      intro he
      have : a = '#' := by simpa using he
      exact ht.2.2.1 (by simp [this])
  have hsc : skipComments (attrLine t v :: S) = (t ++ ':' :: ' ' :: v, S) := by
    rw [skipComments_cons _ S hS (by rw [hstrip]; exact hhead), hstrip]
  unfold parseAttrTypeandValue
  rw [hsc]
  rw [tokenizeLogicalLine_attr t v ht hv]

theorem parseAttrTypeandValue_blank (S : List Str) (hS : headNotSpace S) :
    parseAttrTypeandValue (['\n'] :: S) = .ok ((none, none), S) := by
  have hstrip : stripLineSep ['\n'] = [] := rfl
  have hsc : skipComments (['\n'] :: S) = ([], S) := by
    rw [skipComments_cons _ S hS (by rw [hstrip]; decide), hstrip]
  unfold parseAttrTypeandValue
  rw [hsc]
  rfl

/-!
Record-level and loop-level lemmas about rendered inputs.
-/

theorem attrLine_head_ne_space (t v : Str) (h1 : t ≠ []) (h2 : t.head? ≠ some ' ') :
    (attrLine t v).head? ≠ some ' ' := by
  match t, h1 with
  | a :: t, _ => exact h2

theorem entryInsert_ne_nil (e : Entry) (t : Str) (v : Str) : entryInsert e t v ≠ [] := by
  unfold entryInsert
  split
  · rename_i hany
    obtain ⟨p, hp, _⟩ := List.any_eq_true.mp hany
    intro hmap
    rw [List.map_eq_nil_iff] at hmap
    subst hmap
    exact absurd hp (by simp)
  · simp

theorem buildEntry_ne_nil (entry : Entry) (attrs : List (Str × Str))
    (h : attrs ≠ [] ∨ entry ≠ []) : buildEntry entry attrs ≠ [] := by
  induction attrs generalizing entry with
  | nil =>
    rcases h with h | h
    · exact absurd rfl h
    · exact h
  | cons p ps ih =>
    exact ih (entryInsert entry p.1 p.2) (by
      by_cases hps : ps = []
      · exact Or.inr (entryInsert_ne_nil entry p.1 p.2)
      · exact Or.inl hps)

theorem headNotSpace_attrsBlank (attrs : List (Str × Str)) (S : List Str)
    (hgood : ∀ p ∈ attrs, tokGoodType p.1) :
    headNotSpace (attrs.map (fun p => attrLine p.1 p.2) ++ ['\n'] :: S) := by
  match attrs with
  | [] => simp [headNotSpace]
  | p :: ps =>
    have hp := hgood p (by simp)
    simpa [headNotSpace] using attrLine_head_ne_space p.1 p.2 hp.1 hp.2.1

theorem parseRecord_attrs (attrs : List (Str × Str)) (dn ct : Option Str) (entry : Entry)
    (S : List Str) (hS : headNotSpace S)
    (hgood : ∀ p ∈ attrs, tokGoodType p.1 ∧ tokGoodVal p.2 ∧
      p.1 ≠ "dn".toList ∧ p.1 ≠ "changetype".toList) :
    parseRecord [] dn ct entry (attrs.map (fun p => attrLine p.1 p.2) ++ ['\n'] :: S) =
      .ok (dn, buildEntry entry attrs, S) := by
  induction attrs generalizing entry with
  | nil =>
    rw [parseRecord_eq]
    simp only [List.map_nil, List.nil_append]
    rw [parseAttrTypeandValue_blank S hS]
    rfl
  | cons p ps ih =>
    have hp := hgood p (by simp)
    have hrest : headNotSpace (ps.map (fun p => attrLine p.1 p.2) ++ ['\n'] :: S) :=
      headNotSpace_attrsBlank ps S (fun q hq => (hgood q (by simp [hq])).1)
    rw [parseRecord_eq]
    simp only [List.map_cons, List.cons_append]
    rw [parseAttrTypeandValue_attr p.1 p.2 _ hp.1 hp.2.1 hrest]
    dsimp only
    rw [if_neg hp.2.2.1, if_neg hp.2.2.2, if_neg (by simp [List.contains])]
    exact ih (entryInsert entry p.1 p.2) (fun q hq => hgood q (by simp [hq]))

theorem parseRecord_render (r : SRecord) (S : List Str) (hr : wfRecord r)
    (hS : headNotSpace S) :
    parseRecord [] none none [] (renderRecord r ++ S) =
      .ok (r.dn?, buildEntry [] r.attrs, S) := by
  obtain ⟨hdn, hattrs, hgood⟩ := hr
  match hd : r.dn? with
  | none =>
    unfold renderRecord
    rw [hd]
    simp only [List.nil_append, List.append_assoc, List.singleton_append]
    exact parseRecord_attrs r.attrs none none [] S hS
      (fun p hp => hgood p hp)
  | some d =>
    rw [hd] at hdn
    unfold renderRecord
    rw [hd]
    simp only [List.append_assoc, List.singleton_append, List.cons_append, List.nil_append]
    rw [parseRecord_eq]
    have hrest : headNotSpace (r.attrs.map (fun p => attrLine p.1 p.2) ++ ['\n'] :: S) :=
      headNotSpace_attrsBlank r.attrs S (fun q hq => (hgood q hq).1)
    rw [parseAttrTypeandValue_attr ("dn".toList) d _ (by
        refine ⟨by decide, by decide, by decide, by decide, by decide, by decide⟩)
      hdn.2 hrest]
    dsimp only
    rw [if_pos rfl, if_neg (by simp), if_neg (by simp [hdn.1])]
    exact parseRecord_attrs r.attrs (some d) none [] S hS (fun p hp => hgood p hp)

theorem renderRecord_head_ne_nil (r : SRecord) (X : List Str) :
    ((renderRecord r ++ X).head?.getD []) ≠ [] := by
  unfold renderRecord
  match r.dn? with
  | some d =>
    simp only [List.append_assoc, List.singleton_append, List.cons_append, List.head?_cons,
      Option.getD_some]
    unfold attrLine
    exact List.append_ne_nil_of_left_ne_nil (by decide) _
  | none =>
    simp only [List.nil_append, List.append_assoc, List.singleton_append]
    match r.attrs with
    | [] => simp
    | p :: ps =>
      simp only [List.map_cons, List.cons_append, List.head?_cons, Option.getD_some]
      unfold attrLine
      match p.1 with
      | [] => simp
      | a :: t => simp

theorem headNotSpace_render (rs : List SRecord) (S : List Str)
    (h : ∀ r ∈ rs, wfRecord r) (hS : headNotSpace S) :
    headNotSpace (renderInput rs ++ S) := by
  match rs with
  | [] => simpa [renderInput] using hS
  | r :: rest =>
    obtain ⟨hdn, hattrs, hgood⟩ := h r (by simp)
    have hflat : renderInput (r :: rest) ++ S = renderRecord r ++ (renderInput rest ++ S) := by
      simp [renderInput]
    rw [hflat]
    unfold renderRecord
    match hd : r.dn? with
    | some d =>
      simp only [List.append_assoc, List.singleton_append, List.cons_append]
      show (attrLine ("dn".toList) d).head? ≠ some ' '
      exact attrLine_head_ne_space _ d (by decide) (by decide)
    | none =>
      simp only [List.nil_append, List.append_assoc, List.singleton_append]
      match hat : r.attrs with
      | [] =>
        show (['\n'] : Str).head? ≠ some ' '
        decide
      | p :: ps =>
        have hp := hgood p (by simp [hat])
        simp only [List.map_cons, List.cons_append]
        show (attrLine p.1 p.2).head? ≠ some ' '
        exact attrLine_head_ne_space p.1 p.2 hp.1.1 hp.1.2.1

theorem parseLoop_nil (ig : List Str) (me : Nat) (acc : List (Option Str × Entry)) (n : Nat) :
    parseLoop ig me acc n [] = .ok (acc, n) := by
  rw [parseLoop_eq]
  rw [if_neg (by simp)]

theorem parseLoop_render (rs : List SRecord) (acc : List (Option Str × Entry)) (n : Nat)
    (S : List Str) (h : ∀ r ∈ rs, wfRecord r) (hS : headNotSpace S) :
    parseLoop [] 0 acc n (renderInput rs ++ S) =
      parseLoop [] 0 (acc ++ rs.map dispRecord) (n + rs.length) S := by
  induction rs generalizing acc n with
  | nil => simp [renderInput]
  | cons r rest ih =>
    have hwr := h r (by simp)
    have hflat : renderInput (r :: rest) ++ S = renderRecord r ++ (renderInput rest ++ S) := by
      simp [renderInput]
    rw [hflat, parseLoop_eq]
    rw [if_pos ⟨renderRecord_head_ne_nil r _, Or.inl rfl⟩]
    rw [parseRecord_render r _ hwr
      (headNotSpace_render rest S (fun q hq => h q (by simp [hq])) hS)]
    dsimp only
    rw [if_pos (buildEntry_ne_nil [] r.attrs (Or.inl hwr.2.1))]
    have harg1 : acc ++ (r :: rest).map dispRecord =
        (acc ++ [(r.dn?, buildEntry [] r.attrs)]) ++ rest.map dispRecord := by
      simp [dispRecord]
    have harg2 : n + (r :: rest).length = n + 1 + rest.length := by
      simp only [List.length_cons]
      omega
    rw [harg1, harg2]
    exact ih (acc ++ [(r.dn?, buildEntry [] r.attrs)]) (n + 1) (fun q hq => h q (by simp [hq]))

theorem parseLoop_capped (M : Nat) (rs : List SRecord)
    (acc : List (Option Str × Entry)) (n : Nat)
    (h : ∀ r ∈ rs, wfRecord r) (hM : M ≠ 0) (hn : n ≤ M) :
    parseLoop [] M acc n (renderInput rs) =
      .ok (acc ++ (rs.take (M - n)).map dispRecord, n + min (M - n) rs.length) := by
  induction rs generalizing acc n with
  | nil =>
    simp only [renderInput, List.map_nil, List.flatten_nil]
    rw [parseLoop_nil]
    simp
  | cons r rest ih =>
    by_cases hlt : n < M
    · have hflat : renderInput (r :: rest) = renderRecord r ++ (renderInput rest ++ []) := by
        simp [renderInput]
      rw [hflat, parseLoop_eq]
      rw [if_pos ⟨renderRecord_head_ne_nil r _, Or.inr hlt⟩]
      rw [parseRecord_render r _ (h r (by simp))
        (headNotSpace_render rest [] (fun q hq => h q (by simp [hq])) trivial)]
      dsimp only
      rw [if_pos (buildEntry_ne_nil [] r.attrs (Or.inl (h r (by simp)).2.1))]
      rw [List.append_nil]
      rw [ih (acc ++ [(r.dn?, buildEntry [] r.attrs)]) (n + 1)
        (fun q hq => h q (by simp [hq])) (by omega)]
      refine congrArg Except.ok (Prod.ext ?_ ?_)
      · show (acc ++ [(r.dn?, buildEntry [] r.attrs)]) ++ (rest.take (M - (n + 1))).map dispRecord =
          acc ++ ((r :: rest).take (M - n)).map dispRecord
        have e0 : M - (n + 1) = M - n - 1 := by omega
        have e1 : (r :: rest).take (M - n) = r :: rest.take (M - n - 1) := by
          obtain ⟨k, hk⟩ : ∃ k, M - n = k + 1 := ⟨M - n - 1, by omega⟩
          rw [hk]
          simp [List.take_succ_cons]
        rw [e0, e1]
        simp [dispRecord]
      · show n + 1 + min (M - (n + 1)) rest.length = n + min (M - n) (r :: rest).length
        simp only [List.length_cons]
        omega
    · have hnM : n = M := by omega
      rw [parseLoop_eq]
      rw [if_neg (by
        rintro ⟨h1, h2 | h2⟩
        · exact hM h2
        · omega)]
      have he0 : M - n = 0 := by omega
      rw [he0]
      simp

/-!
Global invariants of the outer loop: the handler receives exactly the
records counted by records_read, every dispatched entry is non-empty, and
no key of a dispatched entry lowercases into the ignored set.
-/

theorem parseLoopF_count (f : Nat) (ig : List Str) (me : Nat)
    (acc : List (Option Str × Entry)) (n : Nat) (st : List Str)
    (recs : List (Option Str × Entry)) (n' : Nat)
    (h : parseLoopF f ig me acc n st = .ok (recs, n')) :
    ∃ ds, recs = acc ++ ds ∧ n' = n + ds.length ∧ ∀ d ∈ ds, d.2 ≠ [] := by
  induction f generalizing acc n st with
  | zero => exact absurd h (by simp [parseLoopF])
  | succ f ih =>
    simp only [parseLoopF] at h
    split at h
    · cases hr : parseRecord ig none none [] st with
      | error e => rw [hr] at h; exact absurd h (by simp)
      | ok r =>
        obtain ⟨dn, entry, st'⟩ := r
        rw [hr] at h
        dsimp only at h
        by_cases hent : entry ≠ []
        · rw [if_pos hent] at h
          obtain ⟨ds, h1, h2, h3⟩ := ih _ _ _ h
          refine ⟨(dn, entry) :: ds, ?_, ?_, ?_⟩
          · rw [h1]; simp
          · rw [h2]; simp only [List.length_cons]; omega
          · intro d hd
            rcases List.mem_cons.mp hd with hd | hd
            · subst hd
              exact hent
            · exact h3 d hd
        · rw [if_neg hent] at h
          exact ih _ _ _ h
    · have hinj : acc = recs ∧ n = n' := by
        have h2 := h
        simp only [Except.ok.injEq, Prod.mk.injEq] at h2
        exact h2
      refine ⟨[], ?_, ?_, by simp⟩
      · rw [List.append_nil]
        exact hinj.1.symm
      · simpa using hinj.2.symm

theorem parse_count (ig : List Str) (me : Nat) (input : List Str)
    (recs : List (Option Str × Entry)) (n : Nat)
    (h : parse ig me input = .ok (recs, n)) :
    n = recs.length ∧ ∀ d ∈ recs, d.2 ≠ [] := by
  obtain ⟨ds, h1, h2, h3⟩ := parseLoopF_count _ _ _ _ _ _ _ _ h
  subst h1
  exact ⟨by simpa using h2, by simpa using h3⟩

theorem entryInsert_key_mem (e : Entry) (t v : Str) (p : Str × List Str)
    (hp : p ∈ entryInsert e t v) : p.1 = t ∨ ∃ q ∈ e, p.1 = q.1 := by
  unfold entryInsert at hp
  split at hp
  · obtain ⟨q, hq, he2⟩ := List.mem_map.mp hp
    right
    refine ⟨q, hq, ?_⟩
    by_cases hqt : q.1 = t
    · rw [if_pos hqt] at he2
      rw [← he2]
    · rw [if_neg hqt] at he2
      rw [← he2]
  · rcases List.mem_append.mp hp with hp | hp
    · right; exact ⟨p, hp, rfl⟩
    · left
      have : p = (t, [v]) := by simpa using hp
      rw [this]

theorem parseRecordF_keys (f : Nat) (ig : List Str) (dn ct : Option Str)
    (entry : Entry) (st : List Str) (dn' : Option Str) (entry' : Entry) (st' : List Str)
    (h : parseRecordF f ig dn ct entry st = .ok (dn', entry', st'))
    (he : ∀ p ∈ entry, ig.contains (strLower p.1) = false) :
    ∀ p ∈ entry', ig.contains (strLower p.1) = false := by
  induction f generalizing dn ct entry st with
  | zero => exact absurd h (by simp [parseRecordF])
  | succ f ih =>
    simp only [parseRecordF] at h
    cases ha : parseAttrTypeandValue st with
    | error e => rw [ha] at h; exact absurd h (by simp)
    | ok r =>
      rw [ha] at h
      obtain ⟨⟨t?, v?⟩, st1⟩ := r
      match t?, v? with
      | some t, some v =>
        simp only at h
        by_cases h1 : t = "dn".toList
        · rw [if_pos h1] at h
          by_cases h2 : dn.isSome = true
          · rw [if_pos h2] at h; exact absurd h (by simp)
          · rw [if_neg h2] at h
            by_cases h3 : is_dn v = false
            · rw [if_pos h3] at h; exact absurd h (by simp)
            · rw [if_neg h3] at h
              exact ih _ _ _ _ h he
        · rw [if_neg h1] at h
          by_cases h2 : t = "changetype".toList
          · rw [if_pos h2] at h
            by_cases h3 : dn.isNone = true
            · rw [if_pos h3] at h; exact absurd h (by simp)
            · rw [if_neg h3] at h
              by_cases h4 : ct.isSome = true
              · rw [if_pos h4] at h; exact absurd h (by simp)
              · rw [if_neg h4] at h
                by_cases h5 : CHANGE_TYPES.contains v = false
                · rw [if_pos h5] at h; exact absurd h (by simp)
                · rw [if_neg h5] at h
                  exact ih _ _ _ _ h he
          · rw [if_neg h2] at h
            by_cases h3 : ig.contains (strLower t) = true
            · rw [if_pos h3] at h
              exact ih _ _ _ _ h he
            · rw [if_neg h3] at h
              refine ih _ _ _ _ h ?_
              intro p hp
              rcases entryInsert_key_mem entry t v p hp with hk | ⟨q, hq, hk⟩
              · rw [hk]
                simpa using h3
              · rw [hk]
                exact he q hq
      | some t, none =>
        simp only at h
        have hinj : dn = dn' ∧ entry = entry' := by
          simp only [Except.ok.injEq, Prod.mk.injEq] at h
          exact ⟨h.1, h.2.1⟩
        rw [← hinj.2]
        exact he
      | none, some v =>
        simp only at h
        have hinj : dn = dn' ∧ entry = entry' := by
          simp only [Except.ok.injEq, Prod.mk.injEq] at h
          exact ⟨h.1, h.2.1⟩
        rw [← hinj.2]
        exact he
      | none, none =>
        simp only at h
        have hinj : dn = dn' ∧ entry = entry' := by
          simp only [Except.ok.injEq, Prod.mk.injEq] at h
          exact ⟨h.1, h.2.1⟩
        rw [← hinj.2]
        exact he

theorem parseLoopF_keys (f : Nat) (ig : List Str) (me : Nat)
    (acc : List (Option Str × Entry)) (n : Nat) (st : List Str)
    (recs : List (Option Str × Entry)) (n' : Nat)
    (h : parseLoopF f ig me acc n st = .ok (recs, n'))
    (hacc : ∀ rec ∈ acc, ∀ p ∈ rec.2, ig.contains (strLower p.1) = false) :
    ∀ rec ∈ recs, ∀ p ∈ rec.2, ig.contains (strLower p.1) = false := by
  induction f generalizing acc n st with
  | zero => exact absurd h (by simp [parseLoopF])
  | succ f ih =>
    simp only [parseLoopF] at h
    split at h
    · cases hr : parseRecord ig none none [] st with
      | error e => rw [hr] at h; exact absurd h (by simp)
      | ok r =>
        obtain ⟨dn, entry, st'⟩ := r
        rw [hr] at h
        dsimp only at h
        have hekeys : ∀ p ∈ entry, ig.contains (strLower p.1) = false :=
          parseRecordF_keys _ ig none none [] st dn entry st' hr (by simp)
        split at h
        · refine ih _ _ _ h ?_
          intro rec hrec
          rcases List.mem_append.mp hrec with hrec | hrec
          · exact hacc rec hrec
          · have : rec = (dn, entry) := by simpa using hrec
            rw [this]
            exact hekeys
        · exact ih _ _ _ h hacc
    · have hinj : acc = recs := by
        simp only [Except.ok.injEq, Prod.mk.injEq] at h
        exact h.1
      rw [← hinj]
      exact hacc

/-!
Folding lemmas: unfolding a value split over continuation lines.
-/

theorem unfoldFrags_cont (ps : List Str) (S : List Str)
    (hps : ∀ q ∈ ps, '\r' ∉ q) (hS : headNotSpace S) :
    unfoldFrags (ps.map contLine ++ S) = (ps, S) := by
  induction ps with
  | nil => simpa using unfoldFrags_noCont S hS
  | cons q qs ih =>
    simp only [List.map_cons, List.cons_append]
    show ((stripLineSep ((contLine q).drop 1) :: (unfoldFrags (qs.map contLine ++ S)).1,
        (unfoldFrags (qs.map contLine ++ S)).2) : List Str × List Str) = (q :: qs, S)
    rw [ih (fun x hx => hps x (by simp [hx]))]
    have hdrop : (contLine q).drop 1 = q ++ ['\n'] := rfl
    rw [hdrop, stripLineSep_append_newline q (hps q (by simp))]

theorem unfoldLDIFLine_fold (line : Str) (ps : List Str) (S : List Str)
    (hps : ∀ q ∈ ps, '\r' ∉ q) (hS : headNotSpace S) :
    unfoldLDIFLine (line :: (ps.map contLine ++ S)) =
      (stripLineSep line ++ ps.flatten, S) := by
  show ((stripLineSep line :: (unfoldFrags (ps.map contLine ++ S)).1).flatten,
      (unfoldFrags (ps.map contLine ++ S)).2) = _
  rw [unfoldFrags_cont ps S hps hS]
  simp

theorem skipComments_congr_unfold (st1 st2 : List Str)
    (h : unfoldLDIFLine st1 = unfoldLDIFLine st2) :
    skipComments st1 = skipComments st2 := by
  rw [skipComments_eq st1, skipComments_eq st2, h]

theorem parseAttrTypeandValue_congr_unfold (st1 st2 : List Str)
    (h : unfoldLDIFLine st1 = unfoldLDIFLine st2) :
    parseAttrTypeandValue st1 = parseAttrTypeandValue st2 := by
  unfold parseAttrTypeandValue
  rw [skipComments_congr_unfold st1 st2 h]

theorem stripLineSep_attrLine (t v : Str) (ht : '\r' ∉ t) (hv : '\r' ∉ v) :
    stripLineSep (attrLine t v) = t ++ ':' :: ' ' :: v := by
  have hline : attrLine t v = (t ++ ':' :: ' ' :: v) ++ ['\n'] := by
    simp [attrLine]
  rw [hline]
  apply stripLineSep_append_newline
  intro hm
  rcases List.mem_append.mp hm with hm | hm
  · exact ht hm
  · rcases List.mem_cons.mp hm with hm | hm
    · exact absurd hm (by decide)
    · rcases List.mem_cons.mp hm with hm | hm
      · exact absurd hm (by decide)
      · exact hv hm

/-!
Error scenarios: records violating the structural rules make `parse` raise.
-/

theorem attrLine_ne_nil (t v : Str) : attrLine t v ≠ [] := by
  unfold attrLine
  match t with
  | [] => simp
  | a :: s => simp

theorem parseRecord_err_dupDn (d1 d2 : Str) (junk : List Str)
    (h1 : goodDN d1) (h2 : tokGoodVal d2) (hj : headNotSpace junk) :
    parseRecord [] none none [] (attrLine ("dn".toList) d1 :: attrLine ("dn".toList) d2 :: junk) =
      .error "Two lines starting with dn: in one record." := by
  have hdn : tokGoodType ("dn".toList) := by
    refine ⟨by decide, by decide, by decide, by decide, by decide, by decide⟩
  rw [parseRecord_eq]
  rw [parseAttrTypeandValue_attr _ d1 _ hdn h1.2 (by
    show (attrLine ("dn".toList) d2).head? ≠ some ' '
    exact attrLine_head_ne_space _ d2 (by decide) (by decide))]
  dsimp only
  rw [if_pos rfl, if_neg (by simp), if_neg (by simp [h1.1])]
  rw [parseRecord_eq]
  rw [parseAttrTypeandValue_attr _ d2 _ hdn h2 hj]
  dsimp only
  rw [if_pos rfl, if_pos (by simp)]

theorem parseRecord_err_badDn (d : Str) (junk : List Str)
    (h1 : is_dn d = false) (h2 : tokGoodVal d) (hj : headNotSpace junk) :
    parseRecord [] none none [] (attrLine ("dn".toList) d :: junk) =
      .error "No valid string-representation of distinguished name." := by
  have hdn : tokGoodType ("dn".toList) := by
    refine ⟨by decide, by decide, by decide, by decide, by decide, by decide⟩
  rw [parseRecord_eq]
  rw [parseAttrTypeandValue_attr _ d _ hdn h2 hj]
  dsimp only
  rw [if_pos rfl, if_neg (by simp), if_pos h1]

theorem parseRecord_err_ctNoDn (v : Str) (junk : List Str)
    (h2 : tokGoodVal v) (hj : headNotSpace junk) :
    parseRecord [] none none [] (attrLine ("changetype".toList) v :: junk) =
      .error "Read changetype: before getting valid dn: line." := by
  have hct : tokGoodType ("changetype".toList) := by
    refine ⟨by decide, by decide, by decide, by decide, by decide, by decide⟩
  rw [parseRecord_eq]
  rw [parseAttrTypeandValue_attr _ v _ hct h2 hj]
  dsimp only
  rw [if_neg (by decide), if_pos rfl, if_pos (by simp)]

theorem parseRecord_err_dupCt (d c1 c2 : Str) (junk : List Str)
    (hd : goodDN d) (hc1 : CHANGE_TYPES.contains c1 = true)
    (h1 : tokGoodVal c1) (h2 : tokGoodVal c2) (hj : headNotSpace junk) :
    parseRecord [] none none []
        (attrLine ("dn".toList) d :: attrLine ("changetype".toList) c1 ::
          attrLine ("changetype".toList) c2 :: junk) =
      .error "Two lines starting with changetype: in one record." := by
  have hdn : tokGoodType ("dn".toList) := by
    refine ⟨by decide, by decide, by decide, by decide, by decide, by decide⟩
  have hct : tokGoodType ("changetype".toList) := by
    refine ⟨by decide, by decide, by decide, by decide, by decide, by decide⟩
  rw [parseRecord_eq]
  rw [parseAttrTypeandValue_attr _ d _ hdn hd.2 (by
    show (attrLine ("changetype".toList) c1).head? ≠ some ' '
    exact attrLine_head_ne_space _ c1 (by decide) (by decide))]
  dsimp only
  rw [if_pos rfl, if_neg (by simp), if_neg (by simp [hd.1])]
  rw [parseRecord_eq]
  rw [parseAttrTypeandValue_attr _ c1 _ hct h1 (by
    show (attrLine ("changetype".toList) c2).head? ≠ some ' '
    exact attrLine_head_ne_space _ c2 (by decide) (by decide))]
  dsimp only
  rw [if_neg (by decide), if_pos rfl, if_neg (by simp), if_neg (by simp),
    if_neg (by rw [hc1]; simp)]
  rw [parseRecord_eq]
  rw [parseAttrTypeandValue_attr _ c2 _ hct h2 hj]
  dsimp only
  rw [if_neg (by decide), if_pos rfl, if_neg (by simp), if_pos (by simp)]

theorem parseRecord_err_badCt (d v : Str) (junk : List Str)
    (hd : goodDN d) (hv : CHANGE_TYPES.contains v = false)
    (h2 : tokGoodVal v) (hj : headNotSpace junk) :
    parseRecord [] none none []
        (attrLine ("dn".toList) d :: attrLine ("changetype".toList) v :: junk) =
      .error "changetype value is invalid." := by
  have hdn : tokGoodType ("dn".toList) := by
    refine ⟨by decide, by decide, by decide, by decide, by decide, by decide⟩
  have hct : tokGoodType ("changetype".toList) := by
    refine ⟨by decide, by decide, by decide, by decide, by decide, by decide⟩
  rw [parseRecord_eq]
  rw [parseAttrTypeandValue_attr _ d _ hdn hd.2 (by
    show (attrLine ("changetype".toList) v).head? ≠ some ' '
    exact attrLine_head_ne_space _ v (by decide) (by decide))]
  dsimp only
  rw [if_pos rfl, if_neg (by simp), if_neg (by simp [hd.1])]
  rw [parseRecord_eq]
  rw [parseAttrTypeandValue_attr _ v _ hct h2 hj]
  dsimp only
  rw [if_neg (by decide), if_pos rfl, if_neg (by simp), if_neg (by simp), if_pos hv]

theorem parseLoop_error (ig : List Str) (me : Nat) (acc : List (Option Str × Entry))
    (n : Nat) (st : List Str) (e : String)
    (hhead : st.head?.getD [] ≠ []) (hme : me = 0 ∨ n < me)
    (h : parseRecord ig none none [] st = .error e) :
    parseLoop ig me acc n st = .error e := by
  rw [parseLoop_eq, if_pos ⟨hhead, hme⟩, h]

/-- Full parse of a rendered prefix followed by arbitrary further lines. -/
theorem parse_renderPrefix (rs : List SRecord) (S : List Str)
    (h : ∀ r ∈ rs, wfRecord r) (hS : headNotSpace S) :
    parse [] 0 (renderInput rs ++ S) =
      parseLoop [] 0 (rs.map dispRecord) rs.length S := by
  show parseLoop [] 0 [] 0 (renderInput rs ++ S) = _
  rw [parseLoop_render rs [] 0 S h hS]
  simp

/-- Full parse of a rendered input with no ignored attributes and no cap. -/
theorem parse_render_full (rs : List SRecord) (h : ∀ r ∈ rs, wfRecord r) :
    parse [] 0 (renderInput rs) = .ok (rs.map dispRecord, rs.length) := by
  have h0 : renderInput rs = renderInput rs ++ [] := by simp
  rw [h0, parse_renderPrefix rs [] h trivial, parseLoop_nil]

theorem findIdx?_drop (p : Char → Bool) (u : Str) (i j : Nat)
    (h : u.findIdx? p i = some j) :
    i ≤ j ∧ ∃ a rest, u.drop (j - i) = a :: rest ∧ p a = true := by
  induction u generalizing i with
  | nil => exact absurd h (by simp [List.findIdx?])
  | cons a l ih =>
    rw [List.findIdx?_cons] at h
    by_cases hp : p a = true
    · rw [if_pos hp] at h
      injection h with hj
      subst hj
      exact ⟨le_rfl, a, l, by simp, hp⟩
    · rw [if_neg hp] at h
      obtain ⟨hle, b, rest, hdrop, hpb⟩ := ih (i + 1) h
      refine ⟨by omega, b, rest, ?_, hpb⟩
      have hsub : j - i = (j - (i + 1)) + 1 := by omega
      rw [hsub, List.drop_succ_cons]
      exact hdrop

theorem tokenizeLogicalLine_b64 (t x : Str) (h : ':' ∉ t) :
    tokenizeLogicalLine (t ++ ':' :: ':' :: x) =
      (match base64decode x with
       | some v => .ok (some t, some v)
       | none => .error "Incorrect padding") := by
  have hcolon : ':' ∈ t ++ ':' :: ':' :: x := by simp
  unfold tokenizeLogicalLine
  rw [if_neg (by
    rintro (he | he | he) <;> rw [he] at hcolon <;> exact absurd hcolon (by decide))]
  rw [findIdx_colon t (':' :: x) h 0]
  simp only [Nat.zero_add]
  rw [List.take_left t, List.drop_left t]
  have hspec : ((':' :: ':' :: x).take 2) = [':', ':'] := rfl
  rw [hspec, if_pos rfl]
  have hdrop2 : (t ++ ':' :: ':' :: x).drop (t.length + 2) = x := by
    have he : t ++ ':' :: ':' :: x = (t ++ [':', ':']) ++ x := by simp
    have hl : (t ++ [':', ':']).length = t.length + 2 := by simp
    rw [he, ← hl, List.drop_left]
  rw [hdrop2]

/-!
The claims.
-/

/-- C1: the claim says a nil-valued token (a line with no colon, or a URL
reference line) is dropped and parsing of the same record continues.  The
code instead exits the inner record loop as soon as the value of a token is
None, because the loop condition requires both components to be non-None;
the record is cut at the nil token, its first half is dispatched, and the
remaining attribute lines become a second record with no dn.  This theorem
evaluates the parser on the two failing inputs and records the divergence
from the single-record outcome the claim describes. -/
theorem spec_c1 :
    parse [] 0 [("dn: a=b\n").toList, ("x: 1\n").toList, ("url:< http://e\n").toList,
        ("y: 2\n").toList, ("\n").toList] =
      .ok ([(some ("a=b".toList), [("x".toList, ["1".toList])]),
            (none, [("y".toList, ["2".toList])])], 2) ∧
    parse [] 0 [("dn: a=b\n").toList, ("x: 1\n").toList, ("badline\n").toList,
        ("y: 2\n").toList, ("\n").toList] =
      .ok ([(some ("a=b".toList), [("x".toList, ["1".toList])]),
            (none, [("y".toList, ["2".toList])])], 2) ∧
    (([(some ("a=b".toList), [("x".toList, ["1".toList])]),
       (none, [("y".toList, ["2".toList])])], 2) :
        List (Option Str × Entry) × Nat) ≠
      ([(some ("a=b".toList), [("x".toList, ["1".toList]), ("y".toList, ["2".toList])])], 1) :=
  ⟨rfl, rfl, by decide⟩

/-- C2: for every rendered input of well-formed records with non-empty
entries and no cap, the handler receives exactly the records in input order
and records_read equals their number; moreover for every parse whatsoever,
records_read equals the number of handler invocations and every dispatched
entry is non-empty (so an empty-entry record is never dispatched or
counted). -/
theorem spec_c2 (rs : List SRecord) (h : ∀ r ∈ rs, wfRecord r) :
    parse [] 0 (renderInput rs) = .ok (rs.map dispRecord, rs.length) ∧
    ∀ ig me input recs n, parse ig me input = .ok (recs, n) →
      n = recs.length ∧ ∀ d ∈ recs, d.2 ≠ [] :=
  ⟨parse_render_full rs h,
   fun ig me input recs n hp => parse_count ig me input recs n hp⟩

theorem spec_c2_witness :
    (∀ r ∈ ([⟨some ("a=b".toList), [("x".toList, "1".toList)]⟩,
             ⟨some ("c=d".toList), [("y".toList, "2".toList)]⟩] : List SRecord), wfRecord r) ∧
    parse [] 0 (renderInput
        [⟨some ("a=b".toList), [("x".toList, "1".toList)]⟩,
         ⟨some ("c=d".toList), [("y".toList, "2".toList)]⟩]) =
      .ok ([(some ("a=b".toList), [("x".toList, ["1".toList])]),
            (some ("c=d".toList), [("y".toList, ["2".toList])])], 2) :=
  ⟨by decide,
   (spec_c2 [⟨some ("a=b".toList), [("x".toList, "1".toList)]⟩,
             ⟨some ("c=d".toList), [("y".toList, "2".toList)]⟩] (by decide)).1⟩

/-- C3: a record with a second dn line, an invalid dn value, a changetype
line before any dn line, a second changetype line, or a changetype value
outside the four case-sensitive tokens makes parse raise the corresponding
fatal error, whatever well-formed records precede it and whatever lines
follow; the result is the error, so the handler is never invoked for the
offending record. -/
theorem spec_c3 (rs : List SRecord) (junk : List Str)
    (hrs : ∀ r ∈ rs, wfRecord r) (hjunk : headNotSpace junk) :
    (∀ d1 d2, goodDN d1 → tokGoodVal d2 →
      parse [] 0 (renderInput rs ++
          (attrLine ("dn".toList) d1 :: attrLine ("dn".toList) d2 :: junk)) =
        .error "Two lines starting with dn: in one record.") ∧
    (∀ d, is_dn d = false → tokGoodVal d →
      parse [] 0 (renderInput rs ++ (attrLine ("dn".toList) d :: junk)) =
        .error "No valid string-representation of distinguished name.") ∧
    (∀ v, tokGoodVal v →
      parse [] 0 (renderInput rs ++ (attrLine ("changetype".toList) v :: junk)) =
        .error "Read changetype: before getting valid dn: line.") ∧
    (∀ d c1 c2, goodDN d → CHANGE_TYPES.contains c1 = true →
        tokGoodVal c1 → tokGoodVal c2 →
      parse [] 0 (renderInput rs ++
          (attrLine ("dn".toList) d :: attrLine ("changetype".toList) c1 ::
            attrLine ("changetype".toList) c2 :: junk)) =
        .error "Two lines starting with changetype: in one record.") ∧
    (∀ d v, goodDN d → CHANGE_TYPES.contains v = false → tokGoodVal v →
      parse [] 0 (renderInput rs ++
          (attrLine ("dn".toList) d :: attrLine ("changetype".toList) v :: junk)) =
        .error "changetype value is invalid.") := by
  refine ⟨?_, ?_, ?_, ?_, ?_⟩
  · intro d1 d2 h1 h2
    rw [parse_renderPrefix rs _ hrs (by
      show (attrLine ("dn".toList) d1).head? ≠ some ' '
      exact attrLine_head_ne_space _ d1 (by decide) (by decide))]
    exact parseLoop_error [] 0 _ _ _ _ (attrLine_ne_nil _ d1) (Or.inl rfl)
      (parseRecord_err_dupDn d1 d2 junk h1 h2 hjunk)
  · intro d h1 h2
    rw [parse_renderPrefix rs _ hrs (by
      show (attrLine ("dn".toList) d).head? ≠ some ' '
      exact attrLine_head_ne_space _ d (by decide) (by decide))]
    exact parseLoop_error [] 0 _ _ _ _ (attrLine_ne_nil _ d) (Or.inl rfl)
      (parseRecord_err_badDn d junk h1 h2 hjunk)
  · intro v h2
    rw [parse_renderPrefix rs _ hrs (by
      show (attrLine ("changetype".toList) v).head? ≠ some ' '
      exact attrLine_head_ne_space _ v (by decide) (by decide))]
    exact parseLoop_error [] 0 _ _ _ _ (attrLine_ne_nil _ v) (Or.inl rfl)
      (parseRecord_err_ctNoDn v junk h2 hjunk)
  · intro d c1 c2 hd hc1 h1 h2
    rw [parse_renderPrefix rs _ hrs (by
      show (attrLine ("dn".toList) d).head? ≠ some ' '
      exact attrLine_head_ne_space _ d (by decide) (by decide))]
    exact parseLoop_error [] 0 _ _ _ _ (attrLine_ne_nil _ d) (Or.inl rfl)
      (parseRecord_err_dupCt d c1 c2 junk hd hc1 h1 h2 hjunk)
  · intro d v hd hv h2
    rw [parse_renderPrefix rs _ hrs (by
      show (attrLine ("dn".toList) d).head? ≠ some ' '
      exact attrLine_head_ne_space _ d (by decide) (by decide))]
    exact parseLoop_error [] 0 _ _ _ _ (attrLine_ne_nil _ d) (Or.inl rfl)
      (parseRecord_err_badCt d v junk hd hv h2 hjunk)

theorem spec_c3_witness :
    parse [] 0 [("dn: a=b\n").toList, ("dn: c=d\n").toList] =
      .error "Two lines starting with dn: in one record." ∧
    parse [] 0 [("dn: @@\n").toList] =
      .error "No valid string-representation of distinguished name." ∧
    parse [] 0 [("changetype: add\n").toList] =
      .error "Read changetype: before getting valid dn: line." ∧
    parse [] 0 [("dn: a=b\n").toList, ("changetype: add\n").toList,
        ("changetype: add\n").toList] =
      .error "Two lines starting with changetype: in one record." ∧
    parse [] 0 [("dn: a=b\n").toList, ("changetype: Add\n").toList] =
      .error "changetype value is invalid." :=
  ⟨(spec_c3 [] [] (by simp) trivial).1 ("a=b".toList) ("c=d".toList) (by decide) (by decide),
   (spec_c3 [] [] (by simp) trivial).2.1 ("@@".toList) (by decide) (by decide),
   (spec_c3 [] [] (by simp) trivial).2.2.1 ("add".toList) (by decide),
   (spec_c3 [] [] (by simp) trivial).2.2.2.1 ("a=b".toList) ("add".toList) ("add".toList)
     (by decide) (by decide) (by decide) (by decide),
   (spec_c3 [] [] (by simp) trivial).2.2.2.2 ("a=b".toList) ("Add".toList)
     (by decide) (by decide) (by decide)⟩

/-- C4: with a non-zero cap M and at least M + 5 well-formed records, the
loop dispatches exactly the first M records and records_read is M; the cap
is tested only before starting a record (a record under way is finished and
dispatched, and the counter can reach but never pass M). -/
theorem spec_c4 (M : Nat) (rs : List SRecord) (hM : 0 < M)
    (hlen : M + 5 ≤ rs.length) (h : ∀ r ∈ rs, wfRecord r) :
    parse [] M (renderInput rs) = .ok ((rs.take M).map dispRecord, M) := by
  show parseLoop [] M [] 0 (renderInput rs) = _
  rw [parseLoop_capped M rs [] 0 h (by omega) (by omega)]
  simp only [Nat.sub_zero, List.nil_append, Nat.zero_add]
  rw [Nat.min_eq_left (by omega)]

theorem spec_c4_witness :
    parse [] 1 (renderInput
        (List.replicate 6 (⟨some ("a=b".toList), [("x".toList, "1".toList)]⟩ : SRecord))) =
      .ok ([(some ("a=b".toList), [("x".toList, ["1".toList])])], 1) :=
  spec_c4 1 (List.replicate 6 ⟨some ("a=b".toList), [("x".toList, "1".toList)]⟩)
    (by decide) (by decide) (by decide)

/-- C5: is_dn accepts the sample DN, accepts the empty string, rejects the
sample with an empty RDN component; in general it accepts a non-empty
string exactly when the entire string is in the language of the DN grammar
(so a string with a matching proper prefix, such as the comma-extended
sample, is rejected). -/
theorem spec_c5 :
    is_dn ("cn=Bob,dc=example,dc=com".toList) = true ∧
    is_dn ("".toList) = true ∧
    is_dn ("cn=Bob,,dc=com".toList) = false ∧
    (∀ s : Str, is_dn s = true ↔ (s = [] ∨ REMem dnRE s)) ∧
    REMem dnRE ("cn=Bob".toList) ∧
    is_dn ("cn=Bob,".toList) = false := by
  refine ⟨by decide, by decide, by decide, ?_, ?_, by decide⟩
  · intro s
    unfold is_dn
    constructor
    · intro hb
      have hb2 : (s == []) = true ∨ reMatch dnRE s = true := by
        simpa using hb
      rcases hb2 with hb | hb
      · exact Or.inl (by simpa using hb)
      · exact Or.inr ((reMatch_iff_REMem dnRE s).mp hb)
    · rintro (hb | hb)
      · subst hb
        rfl
      · rw [(reMatch_iff_REMem dnRE s).mpr hb]
        simp
  · exact (reMatch_iff_REMem dnRE _).mp (by decide)

theorem spec_c5_witness :
    is_dn ("cn=Bob,dc=example,dc=com".toList) = true ∧
    (is_dn ("dc=com".toList) = true ↔
      (("dc=com".toList : Str) = [] ∨ REMem dnRE ("dc=com".toList))) :=
  ⟨spec_c5.1, spec_c5.2.2.2.1 ("dc=com".toList)⟩

/-- C6: a value split into K pieces, the first on the attribute line and
each further piece on a continuation line with exactly one leading space,
unfolds to the same logical line as the unsplit value (one trailing
separator stripped per physical line, the one leading space stripped per
continuation, fragments joined with nothing between them), and tokenizes to
the same result as the single unfolded line. -/
theorem spec_c6 (t p : Str) (ps : List Str) (S : List Str)
    (ht : '\r' ∉ t) (hp : '\r' ∉ p) (hps : ∀ q ∈ ps, '\r' ∉ q) (hS : headNotSpace S) :
    unfoldLDIFLine (attrLine t p :: (ps.map contLine ++ S)) =
      (t ++ ':' :: ' ' :: (p ++ ps.flatten), S) ∧
    parseAttrTypeandValue (attrLine t p :: (ps.map contLine ++ S)) =
      parseAttrTypeandValue (attrLine t (p ++ ps.flatten) :: S) := by
  have hu1 : unfoldLDIFLine (attrLine t p :: (ps.map contLine ++ S)) =
      (t ++ ':' :: ' ' :: (p ++ ps.flatten), S) := by
    rw [unfoldLDIFLine_fold _ ps S hps hS, stripLineSep_attrLine t p ht hp]
    simp
  have hflat : '\r' ∉ p ++ ps.flatten := by
    intro hm
    rcases List.mem_append.mp hm with hm | hm
    · exact hp hm
    · obtain ⟨q, hq, hqm⟩ := List.mem_flatten.mp hm
      exact hps q hq hqm
  have hu2 : unfoldLDIFLine (attrLine t (p ++ ps.flatten) :: S) =
      (t ++ ':' :: ' ' :: (p ++ ps.flatten), S) := by
    rw [unfoldLDIFLine_cons _ S hS, stripLineSep_attrLine t _ ht hflat]
  exact ⟨hu1, parseAttrTypeandValue_congr_unfold _ _ (by rw [hu1, hu2])⟩

theorem spec_c6_witness :
    unfoldLDIFLine (attrLine ("cn".toList) ("Al".toList) ::
        (["ice".toList].map contLine ++ [])) =
      ("cn".toList ++ ':' :: ' ' :: ("Al".toList ++ ["ice".toList].flatten), []) ∧
    parseAttrTypeandValue (attrLine ("cn".toList) ("Al".toList) ::
        (["ice".toList].map contLine ++ [])) =
      parseAttrTypeandValue (attrLine ("cn".toList)
        ("Al".toList ++ ["ice".toList].flatten) :: []) :=
  spec_c6 ("cn".toList) ("Al".toList) ["ice".toList] []
    (by decide) (by decide) (by decide) trivial

/-- C7: an attribute type whose lowercase form is in the lowercased ignored
set never occurs as a key of any dispatched entry, whatever case the input
used: every key of every dispatched entry fails the case-insensitive
ignored-set lookup. -/
theorem spec_c7 (ig : List Str) (me : Nat) (input : List Str)
    (recs : List (Option Str × Entry)) (n : Nat)
    (h : parse ig me input = .ok (recs, n)) (t : Str)
    (ht : (ig.map strLower).contains (strLower t) = true) :
    ∀ rec ∈ recs, ∀ vs, (t, vs) ∉ rec.2 := by
  intro rec hrec vs hmem
  have hk := parseLoopF_keys _ _ _ _ _ _ _ _ h (by simp) rec hrec (t, vs) hmem
  rw [hk] at ht
  exact absurd ht (by decide)

theorem spec_c7_witness :
    parse [("MAIL".toList)] 0 [("dn: a=b\n").toList, ("Mail: x\n").toList,
        ("cn: y\n").toList, ("\n").toList] =
      .ok ([(some ("a=b".toList), [("cn".toList, ["y".toList])])], 1) ∧
    ∀ rec ∈ ([(some ("a=b".toList), [("cn".toList, ["y".toList])])] :
        List (Option Str × Entry)), ∀ vs, ("mAiL".toList, vs) ∉ rec.2 :=
  ⟨rfl,
   spec_c7 [("MAIL".toList)] 0
     [("dn: a=b\n").toList, ("Mail: x\n").toList, ("cn: y\n").toList, ("\n").toList]
     [(some ("a=b".toList), [("cn".toList, ["y".toList])])] 1 rfl
     ("mAiL".toList) (by decide)⟩

/-- C8: the base64 value spec: the sample line decodes to exactly hello; in
general a line whose value spec is a double colon has the text after the two
colons base64-decoded, and a decoding failure is a fatal error of the parse,
not a dropped attribute (shown both at the tokenizer and on a full parse). -/
theorem spec_c8 :
    tokenizeLogicalLine ("attr:: aGVsbG8=".toList) =
      .ok (some ("attr".toList), some ("hello".toList)) ∧
    (∀ t x d, ':' ∉ t → base64decode x = some d →
      tokenizeLogicalLine (t ++ ':' :: ':' :: x) = .ok (some t, some d)) ∧
    (∀ t x, ':' ∉ t → base64decode x = none →
      tokenizeLogicalLine (t ++ ':' :: ':' :: x) = .error "Incorrect padding") ∧
    parse [] 0 [("dn: a=b\n").toList, ("attr:: aGVsbG8\n").toList, ("\n").toList] =
      .error "Incorrect padding" := by
  refine ⟨rfl, ?_, ?_, rfl⟩
  · intro t x d ht hd
    rw [tokenizeLogicalLine_b64 t x ht, hd]
  · intro t x ht hd
    rw [tokenizeLogicalLine_b64 t x ht, hd]

theorem spec_c8_witness :
    base64decode (" aGVsbG8=".toList) = some ("hello".toList) ∧
    tokenizeLogicalLine ("attr".toList ++ ':' :: ':' :: (" aGVsbG8=".toList)) =
      .ok (some ("attr".toList), some ("hello".toList)) ∧
    base64decode ("aGVsbG8".toList) = none ∧
    tokenizeLogicalLine ("attr".toList ++ ':' :: ':' :: ("aGVsbG8".toList)) =
      .error "Incorrect padding" :=
  ⟨rfl,
   spec_c8.2.1 ("attr".toList) (" aGVsbG8=".toList) ("hello".toList) (by decide) rfl,
   rfl,
   spec_c8.2.2.1 ("attr".toList) ("aGVsbG8".toList) (by decide) rfl⟩

/-- C9: a record consisting only of ordinary attribute lines, with no dn
line at all, is still dispatched, and the handler receives dn equal to
None (the model distinguishes none from some value, in particular from the
empty string). -/
theorem spec_c9 (attrs : List (Str × Str)) (hne : attrs ≠ [])
    (hgood : ∀ p ∈ attrs, tokGoodType p.1 ∧ tokGoodVal p.2 ∧
      p.1 ≠ "dn".toList ∧ p.1 ≠ "changetype".toList) :
    parse [] 0 (renderInput [⟨none, attrs⟩]) =
      .ok ([(none, buildEntry [] attrs)], 1) :=
  parse_render_full [⟨none, attrs⟩] (by
    intro r hr
    have : r = ⟨none, attrs⟩ := by simpa using hr
    subst this
    exact ⟨trivial, hne, hgood⟩)

theorem spec_c9_witness :
    parse [] 0 (renderInput [⟨none, [("a".toList, "1".toList)]⟩]) =
      .ok ([(none, [("a".toList, ["1".toList])])], 1) :=
  spec_c9 [("a".toList, "1".toList)] (by decide) (by decide)

/-- C10: on a logical line with a colon whose two-character value spec is
neither double-colon nor colon-angle, the tokenizer takes the substring two
characters past the first colon and strips its leading whitespace; in
particular for a line written type colon value with no space, the character
right after the colon is lost. -/
theorem spec_c10 (u : Str) (colonPos : Nat)
    (h1 : u.findIdx? (fun c => c == ':') = some colonPos)
    (h2 : (u.drop colonPos).take 2 ≠ [':', ':'])
    (h3 : (u.drop colonPos).take 2 ≠ [':', '<'])
    (h4 : u ≠ [] ∧ u ≠ ['\n'] ∧ u ≠ ['\r', '\n']) :
    tokenizeLogicalLine u =
      .ok (some (u.take colonPos), some (pyLstrip (u.drop (colonPos + 2)))) ∧
    tokenizeLogicalLine ("cn:Bob".toList) =
      .ok (some ("cn".toList), some ("ob".toList)) := by
  refine ⟨?_, rfl⟩
  obtain ⟨hle, a, rest, hdrop, hpa⟩ := findIdx?_drop _ u 0 colonPos h1
  simp only [Nat.sub_zero] at hdrop
  have ha : a = ':' := by simpa using hpa
  subst ha
  unfold tokenizeLogicalLine
  rw [if_neg (by
    rintro (he | he | he)
    · exact h4.1 he
    · exact h4.2.1 he
    · exact h4.2.2 he)]
  rw [h1]
  dsimp only
  rw [if_neg h2, if_neg h3]
  rw [if_neg (by
    rw [hdrop]
    rintro (he | he)
    · have := congrArg List.length he
      simp at this
      omega
    · have := List.cons_eq_cons.mp he
      exact absurd this.1 (by decide))]

theorem spec_c10_witness :
    ("type:value".toList).findIdx? (fun c => c == ':') = some 4 ∧
    tokenizeLogicalLine ("type:value".toList) =
      .ok (some ("type".toList), some ("alue".toList)) :=
  ⟨rfl,
   (spec_c10 ("type:value".toList) 4 rfl (by decide) (by decide)
     ⟨by decide, by decide, by decide⟩).1⟩

end LdifSpec
